import Mathlib

/-!
Verification of the TFRT GPU conversion pass (`src/backends/gpu/lib/pass/pass.cc`).

The development shallowly embeds the rewrite patterns of the pass:

* `wrapRuns` / `walkOp` / `walkOps` / `walkBlock` embed
  `WrapInAsyncExecPattern::matchAndRewriteBlock` and the block walk of
  `WrapInAsyncExecPattern::matchAndRewrite`;
* `signatureRW` embeds `SignatureRewritePattern::matchAndRewrite`;
* `waitRW` embeds `WaitOpRewritePattern::matchAndRewrite`;
* `yieldRW` embeds `YieldOpRewritePattern::matchAndRewrite`;
* `foldMemrefView` embeds `FoldMemrefViewPattern::matchAndRewrite`;
* `funcLegal` embeds the dynamic-legality predicate of
  `populateTfrtConversionPatterns`.

Values are modelled as identifiers paired with a type; newly created values
take identifiers from an explicit fresh counter.  Match failure is modelled
as `Except.error` carrying the reason string of `notifyMatchFailure`; since
the embedded rewrites are pure functions, a failing rewrite trivially leaves
its input unchanged, matching the conversion framework's rollback semantics.
-/

/-- Generic operations of the async-block extraction walk
(`WrapInAsyncExecPattern`).  An op is either a plain op with a kind tag, an
op with one nested region/block (any region-bearing op other than the
conversion's async-execute op), or a `tfrt_gpu_conversion.async.execute` op
with its single body block. -/
inductive GOp where
  | prim (tag : Nat)
  | withRegion (tag : Nat) (body : List GOp)
  | asyncExec (body : List GOp)

/-- The loop body of `WrapInAsyncExecPattern::matchAndRewriteBlock`
(pass.cc:183-206): scan the ops of a block in order, accumulating the
current run of `target.isLegal` ops in `run`; on meeting an illegal op with
a non-empty run, wrap the run into a new `conversion::AsyncExecuteOp`
inserted at the run's start and latch the success flag.  A run still open
when the iteration ends is left in place (the loop wraps only on a
legal-to-illegal transition). -/
def wrapRuns (legal : GOp → Bool) : List GOp → List GOp → Bool × List GOp
  | [], run => (false, run)
  | o :: os, run =>
    if legal o then wrapRuns legal os (run ++ [o])
    else if run.isEmpty then
      let p := wrapRuns legal os []
      (p.1, o :: p.2)
    else
      let p := wrapRuns legal os []
      (true, .asyncExec run :: o :: p.2)

/-- `WrapInAsyncExecPattern::matchAndRewriteBlock` applied to a block's
operation list: the scan starts with an empty run
(`legal_begin = nullptr`). -/
def matchAndRewriteBlock (legal : GOp → Bool) (ops : List GOp) : Bool × List GOp :=
  wrapRuns legal ops []

mutual
/-- The effect of the post-order block walk of
`WrapInAsyncExecPattern::matchAndRewrite` (pass.cc:169-175) on a single op:
nested blocks are visited before their enclosing block; the body block of a
`conversion::AsyncExecuteOp` is skipped (its parent op is an
`AsyncExecuteOp`), but blocks nested deeper inside it are still visited. -/
def walkOp (legal : GOp → Bool) : GOp → Bool × GOp
  | .prim t => (false, .prim t)
  | .asyncExec b =>
    let p := walkOps legal b
    (p.1, .asyncExec p.2)
  | .withRegion t b =>
    let p := walkBlock legal b
    (p.1, .withRegion t p.2)
termination_by o => (sizeOf o, 1)
decreasing_by
  all_goals simp_wf
  all_goals first
    | (apply Prod.Lex.right; simp_arith)
    | (apply Prod.Lex.left; simp_arith)

/-- Walk each op of a list in order, collecting whether any nested block
rewrite succeeded. -/
def walkOps (legal : GOp → Bool) : List GOp → Bool × List GOp
  | [] => (false, [])
  | o :: os =>
    let p := walkOp legal o
    let q := walkOps legal os
    (p.1 || q.1, p.2 :: q.2)
termination_by l => (sizeOf l, 0)
decreasing_by
  all_goals simp_wf
  all_goals first
    | (apply Prod.Lex.right; simp_arith)
    | (apply Prod.Lex.left; simp_arith)

/-- Visit a block that is itself eligible for rewriting (its parent op is
not an `AsyncExecuteOp`): first walk the nested blocks of its ops
(post-order), then wrap the block's own runs of legal ops. -/
def walkBlock (legal : GOp → Bool) (ops : List GOp) : Bool × List GOp :=
  let p := walkOps legal ops
  let q := matchAndRewriteBlock legal p.2
  (p.1 || q.1, q.2)
termination_by (sizeOf ops, 1)
decreasing_by
  all_goals simp_wf
  all_goals first
    | (apply Prod.Lex.right; simp_arith)
    | (apply Prod.Lex.left; simp_arith)
end

/-- `WrapInAsyncExecPattern::matchAndRewrite` on a function body (the
function's entry block): walk all blocks; the latched result is success iff
some block-level sub-rewrite succeeded.  `cancelRootUpdate` on the failure
path performs no IR rollback, so the returned function state is whatever
the walk produced. -/
def wrapMatchAndRewrite (legal : GOp → Bool) (body : List GOp) : Bool × List GOp :=
  walkBlock legal body

/-- Specification-style description of a single block extraction, used to
state the corrected form of the extraction claim: every maximal run of
legal ops that is followed by an illegal op is wrapped into exactly one
async-execute op placed at the run's position, with the illegal op kept
right after it; a run that is still open at the end of the block is left in
place, unwrapped, and produces no success. -/
def specExtract (legal : GOp → Bool) : List GOp → Bool × List GOp
  | [] => (false, [])
  | o :: os =>
    if legal o then
      match h : List.dropWhile legal os with
      | [] => (false, o :: os)
      | bad :: rest =>
        (true, .asyncExec (o :: List.takeWhile legal os) :: bad :: (specExtract legal rest).2)
    else
      let p := specExtract legal os
      (p.1, o :: p.2)
termination_by l => l.length
decreasing_by
  · have hle : (List.dropWhile legal os).length ≤ os.length :=
      (List.dropWhile_suffix legal).length_le
    rw [h] at hle
    simp at hle ⊢
    omega
  · simp

/-- If the scan reports no success, it performed no mutation: the block
still holds the accumulated run followed by the remaining ops. -/
theorem wrapRuns_false (legal : GOp → Bool) :
    ∀ (os run : List GOp), (wrapRuns legal os run).1 = false →
      (wrapRuns legal os run).2 = run ++ os := by
  intro os
  induction os with
  | nil => intro run _; simp [wrapRuns]
  | cons o os ih =>
    intro run hf
    by_cases hl : legal o
    · rw [wrapRuns, if_pos hl] at hf ⊢
      rw [ih _ hf]
      simp
    · by_cases hr : run.isEmpty
      · rw [wrapRuns, if_neg hl, if_pos hr] at hf ⊢
        simp only at hf ⊢
        rw [ih _ hf]
        rw [List.isEmpty_iff] at hr
        simp [hr]
      · rw [wrapRuns, if_neg hl, if_neg hr] at hf
        simp at hf

/-- In an all-legal suffix the scan just extends the run and ends with it
still open, reporting no success and leaving everything in place. -/
theorem wrapRuns_all_legal (legal : GOp → Bool) :
    ∀ (os run : List GOp), (∀ o ∈ os, legal o = true) →
      wrapRuns legal os run = (false, run ++ os) := by
  intro os
  induction os with
  | nil => intro run _; simp [wrapRuns]
  | cons o os ih =>
    intro run h
    rw [wrapRuns, if_pos (h o (by simp))]
    rw [ih _ (fun x hx => h x (by simp [hx]))]
    simp

/-- With a non-empty open run, the scan wraps the run extended by the
longest legal prefix as soon as it meets an illegal op. -/
theorem wrapRuns_open_run (legal : GOp → Bool) :
    ∀ (os run : List GOp) (bad : GOp) (rest : List GOp), run ≠ [] →
      List.dropWhile legal os = bad :: rest →
      wrapRuns legal os run =
        (true, .asyncExec (run ++ List.takeWhile legal os) :: bad ::
          (wrapRuns legal rest []).2) := by
  intro os
  induction os with
  | nil => intro run bad rest _ hd; simp [List.dropWhile] at hd
  | cons o os ih =>
    intro run bad rest hrun hd
    by_cases hl : legal o
    · rw [List.dropWhile_cons_of_pos hl] at hd
      rw [wrapRuns, if_pos hl, ih (run ++ [o]) bad rest (by simp) hd]
      simp [List.takeWhile_cons_of_pos hl]
    · rw [List.dropWhile_cons_of_neg hl] at hd
      cases hd
      rw [wrapRuns, if_neg hl, if_neg (by simpa [List.isEmpty_iff] using hrun)]
      simp [List.takeWhile_cons_of_neg hl]

/-- The block scan coincides with the specification-style description
`specExtract`. -/
theorem matchAndRewriteBlock_eq_specExtract (legal : GOp → Bool) (ops : List GOp) :
    matchAndRewriteBlock legal ops = specExtract legal ops := by
  have main : ∀ (n : Nat) (l : List GOp), l.length ≤ n →
      matchAndRewriteBlock legal l = specExtract legal l := by
    intro n
    induction n with
    | zero =>
      intro l hl
      have : l = [] := by cases l <;> simp_all
      subst this
      simp [matchAndRewriteBlock, wrapRuns, specExtract]
    | succ n ih =>
      intro l hl
      cases l with
      | nil => simp [matchAndRewriteBlock, wrapRuns, specExtract]
      | cons o os =>
        by_cases hlo : legal o
        · rw [matchAndRewriteBlock, wrapRuns, if_pos hlo]
          simp only [List.nil_append]
          cases hd : List.dropWhile legal os with
          | nil =>
            have hall : ∀ x ∈ os, legal x = true := by
              intro x hx
              by_contra hb
              have := List.dropWhile_eq_nil_iff.mp hd x hx
              simp [hb] at this
            rw [wrapRuns_all_legal legal os [o] hall]
            rw [specExtract, if_pos hlo, hd]
            rfl
          | cons bad rest =>
            rw [wrapRuns_open_run legal os [o] bad rest (by simp) hd]
            rw [specExtract, if_pos hlo, hd]
            have hrest : rest.length ≤ n := by
              have hle : (List.dropWhile legal os).length ≤ os.length :=
                (List.dropWhile_suffix legal).length_le
              rw [hd] at hle
              simp at hle hl
              omega
            rw [← matchAndRewriteBlock, ih rest hrest]
            simp
        · rw [matchAndRewriteBlock, wrapRuns, if_neg hlo, if_pos (by simp)]
          rw [specExtract, if_neg hlo]
          have hos : os.length ≤ n := by simp at hl; omega
          rw [← matchAndRewriteBlock, ih os hos]
  exact main ops.length ops (le_refl _)

/-- If no sub-rewrite succeeded anywhere in the walk, neither the walked op
nor the walked list was changed (joint statement for the mutual walk,
by strong induction on size). -/
theorem walk_false_aux (legal : GOp → Bool) :
    ∀ n : Nat,
      (∀ o : GOp, sizeOf o ≤ n → (walkOp legal o).1 = false → (walkOp legal o).2 = o) ∧
      (∀ l : List GOp, sizeOf l ≤ n → (walkOps legal l).1 = false → (walkOps legal l).2 = l) := by
  intro n
  induction n with
  | zero =>
    constructor
    · intro o h
      exfalso
      cases o <;> simp_arith at h
    · intro l h
      exfalso
      cases l <;> simp_arith at h
  | succ n ih =>
    constructor
    · intro o h hf
      cases o with
      | prim t => rw [walkOp]
      | asyncExec b =>
        rw [walkOp] at hf ⊢
        simp only at hf ⊢
        rw [ih.2 b (by simp_arith at h; omega) hf]
      | withRegion t b =>
        rw [walkOp] at hf ⊢
        simp only at hf ⊢
        rw [walkBlock] at hf ⊢
        simp only [Bool.or_eq_false_iff] at hf
        obtain ⟨hp, hq⟩ := hf
        have hb : (walkOps legal b).2 = b := ih.2 b (by simp_arith at h; omega) hp
        rw [hb] at hq ⊢
        rw [matchAndRewriteBlock] at hq ⊢
        rw [wrapRuns_false legal b [] hq]
        simp
    · intro l h hf
      cases l with
      | nil => rw [walkOps]
      | cons o os =>
        rw [walkOps] at hf ⊢
        simp only [Bool.or_eq_false_iff] at hf
        obtain ⟨hp, hq⟩ := hf
        simp only
        rw [ih.1 o (by simp_arith at h; omega) hp, ih.2 os (by simp_arith at h; omega) hq]

/-- C1.  A wrap-in-async-execute rewrite attempt on a Function is atomic:
if it reports failure (no block-level sub-rewrite succeeded), the function
body is exactly as it was before the attempt; if it reports success, the
result is exactly the state produced by the walk, i.e. all its mutations
are retained. -/
theorem wrapInAsyncExec_atomic (legal : GOp → Bool) (body : List GOp) :
    ((wrapMatchAndRewrite legal body).1 = false →
      (wrapMatchAndRewrite legal body).2 = body) ∧
    ((wrapMatchAndRewrite legal body).1 = true →
      (wrapMatchAndRewrite legal body).2 = (walkBlock legal body).2) := by
  constructor
  · intro hf
    rw [wrapMatchAndRewrite] at hf ⊢
    rw [walkBlock] at hf ⊢
    simp only [Bool.or_eq_false_iff] at hf
    obtain ⟨hp, hq⟩ := hf
    have hb : (walkOps legal body).2 = body :=
      (walk_false_aux legal (sizeOf body)).2 body (le_refl _) hp
    rw [hb] at hq ⊢
    rw [matchAndRewriteBlock] at hq ⊢
    rw [wrapRuns_false legal body [] hq]
    simp
  · intro _
    rfl

/-- Witness for C1: on a body consisting of a single illegal op the attempt
reports failure and the body is returned unchanged. -/
theorem wrapInAsyncExec_atomic_witness :
    (wrapMatchAndRewrite (fun _ => false) [GOp.prim 0]).1 = false ∧
    (wrapMatchAndRewrite (fun _ => false) [GOp.prim 0]).2 = [GOp.prim 0] := by
  have hf : (wrapMatchAndRewrite (fun _ => false) [GOp.prim 0]).1 = false := by
    simp [wrapMatchAndRewrite, walkBlock, walkOps, walkOp, matchAndRewriteBlock, wrapRuns]
  exact ⟨hf, (wrapInAsyncExec_atomic (fun _ => false) [GOp.prim 0]).1 hf⟩

/-- C2 counterexample development: a concrete legality classifier on plain
ops (tags below 3 are legal). -/
def legalLt3 : GOp → Bool
  | .prim t => decide (t < 3)
  | _ => false

/-- C2 (as stated) is false: on the block `[legalA, legalB, illegalC,
legalD]` (tags 0, 1, 5, 2 under `legalLt3`) the extractor produces
`[AsyncBlock{A, B}, C, D]` — the trailing run `[D]`, still open at block
end, is *not* wrapped — and not the claimed
`[AsyncBlock{A, B}, C, AsyncBlock{D}]`. -/
theorem extraction_trailing_run_counterexample :
    (matchAndRewriteBlock legalLt3 [GOp.prim 0, GOp.prim 1, GOp.prim 5, GOp.prim 2]).2 =
      [GOp.asyncExec [GOp.prim 0, GOp.prim 1], GOp.prim 5, GOp.prim 2] ∧
    (matchAndRewriteBlock legalLt3 [GOp.prim 0, GOp.prim 1, GOp.prim 5, GOp.prim 2]).2 ≠
      [GOp.asyncExec [GOp.prim 0, GOp.prim 1], GOp.prim 5, GOp.asyncExec [GOp.prim 2]] := by
  refine ⟨rfl, ?_⟩
  intro h
  simp [matchAndRewriteBlock, wrapRuns, legalLt3] at h

/-- C2 (amended).  The block extraction wraps exactly the maximal runs of
legal ops that are closed by a following illegal op, each into one Async
Block placed at the run's position with the illegal op kept after it; a run
still open at block end stays in place unwrapped; it reports success iff at
least one run was wrapped.  (`specExtract` is the specification-level
statement of this behaviour.) -/
theorem extraction_wraps_closed_runs (legal : GOp → Bool) (ops : List GOp) :
    matchAndRewriteBlock legal ops = specExtract legal ops :=
  matchAndRewriteBlock_eq_specExtract legal ops

/-- An op is a `conversion::AsyncExecuteOp`. -/
def isAsyncExec : GOp → Bool
  | .asyncExec _ => true
  | _ => false

mutual
/-- No `conversion::AsyncExecuteOp` occurs anywhere in this op. -/
def noAsync : GOp → Bool
  | .prim _ => true
  | .withRegion _ b => noAsyncList b
  | .asyncExec _ => false

/-- No `conversion::AsyncExecuteOp` occurs anywhere in this op list. -/
def noAsyncList : List GOp → Bool
  | [] => true
  | o :: os => noAsync o && noAsyncList os
end

mutual
/-- No async-execute op is nested *directly* inside the body block of
another async-execute op, anywhere in this op. -/
def noDirectNesting : GOp → Bool
  | .prim _ => true
  | .withRegion _ b => noDirectNestingList b
  | .asyncExec b => noDirectNestingList b && b.all (fun o => !isAsyncExec o)

/-- List form of `noDirectNesting`. -/
def noDirectNestingList : List GOp → Bool
  | [] => true
  | o :: os => noDirectNesting o && noDirectNestingList os
end

theorem noDirectNestingList_append (a b : List GOp) :
    noDirectNestingList (a ++ b) = (noDirectNestingList a && noDirectNestingList b) := by
  induction a with
  | nil => simp [noDirectNestingList]
  | cons o os ih => simp [noDirectNestingList, ih, Bool.and_assoc]

/-- The block scan preserves the no-direct-nesting invariant as long as
all scanned ops respect it and none of them is itself an async-execute
op at top level. -/
theorem wrapRuns_noDirectNesting (legal : GOp → Bool) :
    ∀ (os run : List GOp),
      noDirectNestingList os = true → os.all (fun o => !isAsyncExec o) = true →
      noDirectNestingList run = true → run.all (fun o => !isAsyncExec o) = true →
      noDirectNestingList (wrapRuns legal os run).2 = true := by
  intro os
  induction os with
  | nil => intro run _ _ hr _; simpa [wrapRuns] using hr
  | cons o os ih =>
    intro run hnd hna hrd hra
    simp only [noDirectNestingList, Bool.and_eq_true] at hnd
    simp only [List.all_cons, Bool.and_eq_true] at hna
    by_cases hl : legal o
    · rw [wrapRuns, if_pos hl]
      exact ih (run ++ [o]) hnd.2 hna.2
        (by rw [noDirectNestingList_append]
            simp [noDirectNestingList, hrd, hnd.1])
        (by simp [List.all_append, hra, hna.1])
    · by_cases hr : run.isEmpty
      · rw [wrapRuns, if_neg hl, if_pos hr]
        simp only [noDirectNestingList, Bool.and_eq_true]
        exact ⟨hnd.1, ih [] hnd.2 hna.2 rfl rfl⟩
      · rw [wrapRuns, if_neg hl, if_neg hr]
        simp only [noDirectNestingList, noDirectNesting, Bool.and_eq_true]
        exact ⟨⟨hrd, hra⟩, hnd.1, ih [] hnd.2 hna.2 rfl rfl⟩

/-- The extraction walk, applied to an op (or op list) that contains no
async-execute op at all, produces only ops in which no async-execute op is
directly nested inside another one (joint statement for the mutual walk, by
strong induction on size). -/
theorem walk_noDirectNesting_aux (legal : GOp → Bool) :
    ∀ n : Nat,
      (∀ o : GOp, sizeOf o ≤ n → noAsync o = true →
        noDirectNesting (walkOp legal o).2 = true ∧ isAsyncExec (walkOp legal o).2 = false) ∧
      (∀ l : List GOp, sizeOf l ≤ n → noAsyncList l = true →
        noDirectNestingList (walkOps legal l).2 = true ∧
          (walkOps legal l).2.all (fun o => !isAsyncExec o) = true) := by
  intro n
  induction n with
  | zero =>
    constructor
    · intro o h
      exfalso
      cases o <;> simp_arith at h
    · intro l h
      exfalso
      cases l <;> simp_arith at h
  | succ n ih =>
    constructor
    · intro o h hna
      cases o with
      | prim t => rw [walkOp]; exact ⟨rfl, rfl⟩
      | asyncExec b => simp [noAsync] at hna
      | withRegion t b =>
        rw [noAsync] at hna
        rw [walkOp]
        simp only
        rw [walkBlock]
        simp only
        have hb := ih.2 b (by simp_arith at h; omega) hna
        rw [matchAndRewriteBlock]
        constructor
        · rw [noDirectNesting]
          exact wrapRuns_noDirectNesting legal _ [] hb.1 hb.2 rfl rfl
        · rfl
    · intro l h hna
      cases l with
      | nil => rw [walkOps]; exact ⟨rfl, rfl⟩
      | cons o os =>
        rw [noAsyncList] at hna
        simp only [Bool.and_eq_true] at hna
        rw [walkOps]
        simp only
        have ho := ih.1 o (by simp_arith at h; omega) hna.1
        have hos := ih.2 os (by simp_arith at h; omega) hna.2
        constructor
        · rw [noDirectNestingList]
          simp [ho.1, hos.1]
        · simp [List.all_cons, ho.2, hos.2]

/-- C9.  During the extraction walk, the body block of an async-execute op
is never scanned for runs — the walk only descends into blocks nested
deeper (whose parent op is not the async-execute op) — and consequently,
starting from a Function containing no async-execute op, the extraction
never produces an async-execute op nested directly inside the body of
another one. -/
theorem extraction_never_nests_async (legal : GOp → Bool) (body : List GOp)
    (h : noAsyncList body = true) :
    (∀ b : List GOp, (walkOp legal (GOp.asyncExec b)).2 = GOp.asyncExec (walkOps legal b).2) ∧
    noDirectNestingList (wrapMatchAndRewrite legal body).2 = true := by
  constructor
  · intro b
    rw [walkOp]
  · rw [wrapMatchAndRewrite, walkBlock]
    simp only
    have hb := (walk_noDirectNesting_aux legal (sizeOf body)).2 body (le_refl _) h
    rw [matchAndRewriteBlock]
    exact wrapRuns_noDirectNesting legal _ [] hb.1 hb.2 rfl rfl

/-- Witness for C9: a function body `[legal, illegal]` (tags 0 and 5 under
`legalLt3`) contains no async-execute op; after extraction no async-execute
op is directly nested in another. -/
theorem extraction_never_nests_async_witness :
    noAsyncList [GOp.prim 0, GOp.prim 5] = true ∧
    noDirectNestingList (wrapMatchAndRewrite legalLt3 [GOp.prim 0, GOp.prim 5]).2 = true :=
  ⟨rfl, (extraction_never_nests_async legalLt3 [GOp.prim 0, GOp.prim 5] rfl).2⟩

/-- Value types occurring in the pass: `!tfrt.chain`, `!tfrt_gpu.stream`,
`!tfrt_gpu.event`, `!gpu.async.token`, `!tfrt_gpu.buffer`, `index`, the
stream's context type, and everything else. -/
inductive Ty where
  | chain
  | stream
  | event
  | token
  | buffer
  | index
  | context
  | other (n : Nat)
  deriving DecidableEq, Repr

/-- An SSA value: an identifier together with its static type. -/
structure Val where
  id : Nat
  ty : Ty
  deriving DecidableEq, Repr

/-- Operation kinds relevant to the rewrites. -/
inductive OpKind where
  | cast
  | newChain
  | streamGetContext
  | eventCreate
  | eventRecord
  | streamCreate
  | streamWait
  | constantIndex (value : Int)
  | ret
  | other (n : Nat)
  deriving DecidableEq, Repr

/-- An operation: a kind tag, operand values, result values. -/
structure MOp where
  kind : OpKind
  operands : List Val
  results : List Val
  deriving DecidableEq, Repr

/-- `Value::getDefiningOp`: the op (among `defs`) producing value `v`. -/
def getDefiningOp (defs : List MOp) (v : Val) : Option MOp :=
  defs.find? (fun o => o.results.any (fun r => r.id = v.id))

/-- `GetDefiningCastOp` (pass.cc:224-232): the defining op of `value` if it
is a `conversion::CastOp` with exactly two operands typed
(`!tfrt.chain`, `!tfrt_gpu.stream`); otherwise none. -/
def GetDefiningCastOp (defs : List MOp) (v : Val) : Option MOp :=
  match getDefiningOp defs v with
  | some castOp =>
    if castOp.kind = OpKind.cast then
      match castOp.operands with
      | [a, b] => if a.ty = Ty.chain ∧ b.ty = Ty.stream then some castOp else none
      | _ => none
    else none
  | none => none

/-- The operand-classification loop of
`WaitOpRewritePattern::matchAndRewrite` (pass.cc:314-327): each operand is
either an `!tfrt_gpu.event` (collected into `events`), or a token produced
by a qualifying cast (whose chain and stream operands replace the current
ambient pair, and which is erased); any other operand is a match failure. -/
def classifyOperands (defs : List MOp) :
    List Val → List Val → Val → Val → List MOp →
    Except String (List Val × Val × Val × List MOp)
  | [], events, chain, stream, erased => .ok (events, chain, stream, erased)
  | v :: rest, events, chain, stream, erased =>
    if v.ty = Ty.event then
      classifyOperands defs rest (events ++ [v]) chain stream erased
    else
      match GetDefiningCastOp defs v with
      | some castOp =>
        classifyOperands defs rest events
          (castOp.operands.getD 0 chain) (castOp.operands.getD 1 stream)
          (erased ++ [castOp])
      | none => .error "expected event or cast to token"

/-- The input shape inspected by `WaitOpRewritePattern::matchAndRewrite`:
the enclosing function's argument values, its last block's terminator
operands (none when there is no terminator), the wait op's operands,
whether the op has an `asyncToken` result, and whether it is lexically
inside an `async.execute` op. -/
structure WaitInput where
  funcArgs : List Val
  terminator : Option (List Val)
  operands : List Val
  asyncToken : Bool
  insideAsyncExecute : Bool

/-- The effect of a successful wait rewrite: the ops created (in creation
order), the cast ops erased, the token value replacing the op (for
`gpu.wait async`), and the chain spliced into the function terminator's
first operand (for synchronous `gpu.wait`, which is erased). -/
structure WaitResult where
  emitted : List MOp
  erased : List MOp
  replacement : Option Val
  newTerminatorChain : Option Val
  deriving DecidableEq, Repr

/-- The loop at pass.cc:350-353: for every event, create a
`tfrt_gpu.stream.wait` on `stream`, threading the chain through. -/
def emitWaits (stream : Val) : List Val → Val → Nat → List MOp × Val × Nat
  | [], chain, n => ([], chain, n)
  | e :: es, chain, n =>
    let c : Val := ⟨n, Ty.chain⟩
    let p := emitWaits stream es c (n + 1)
    (⟨.streamWait, [stream, e, chain], [c]⟩ :: p.1, p.2.1, p.2.2)

/-- `WaitOpRewritePattern::matchAndRewrite` (pass.cc:286-375).  Fresh
values are numbered from `n0`. -/
def waitRW (defs : List MOp) (inp : WaitInput) (n0 : Nat) : Except String WaitResult :=
  match inp.funcArgs with
  | a :: b :: _ =>
    if a.ty = Ty.chain ∧ b.ty = Ty.stream then
      match inp.terminator with
      | some (t0 :: _) =>
        if t0.ty = Ty.chain then
          match classifyOperands defs inp.operands [] a b [] with
          | .error e => .error e
          | .ok (events, chain, stream, erased) =>
            if events.length + 1 < inp.operands.length then
              .error "more than one token operand"
            else
              let prologue : List MOp × Val × Val × List Val × Nat :=
                if inp.asyncToken && inp.insideAsyncExecute then
                  let c : Val := ⟨n0, Ty.chain⟩
                  let ctx : Val := ⟨n0 + 1, Ty.context⟩
                  let base : List MOp :=
                    [⟨.newChain, [], [c]⟩, ⟨.streamGetContext, [stream], [ctx]⟩]
                  if events.isEmpty then
                    let ev : Val := ⟨n0 + 2, Ty.event⟩
                    let c2 : Val := ⟨n0 + 3, Ty.chain⟩
                    let s2 : Val := ⟨n0 + 4, Ty.stream⟩
                    (base ++ [⟨.eventCreate, [ctx], [ev]⟩,
                              ⟨.eventRecord, [ev, stream, c], [c2]⟩,
                              ⟨.streamCreate, [ctx], [s2]⟩],
                     c2, s2, [ev], n0 + 5)
                  else
                    let s2 : Val := ⟨n0 + 2, Ty.stream⟩
                    (base ++ [⟨.streamCreate, [ctx], [s2]⟩], c, s2, events, n0 + 3)
                else ([], chain, stream, events, n0)
              let emitted1 := prologue.1
              let chain1 := prologue.2.1
              let stream1 := prologue.2.2.1
              let events1 := prologue.2.2.2.1
              let n1 := prologue.2.2.2.2
              let waits := emitWaits stream1 events1 chain1 n1
              let emitted2 := waits.1
              let chainF := waits.2.1
              let nF := waits.2.2
              if inp.asyncToken then
                let tok : Val := ⟨nF, Ty.token⟩
                .ok ⟨emitted1 ++ emitted2 ++ [⟨.cast, [chainF, stream1], [tok]⟩],
                     erased, some tok, none⟩
              else
                .ok ⟨emitted1 ++ emitted2, erased, none, some chainF⟩
        else .error "not in func returning chain"
      | _ => .error "not in func returning chain"
    else .error "not in func with chain and stream argument"
  | _ => .error "not in func with chain and stream argument"

/-- First operand (with its index) whose defining op is a qualifying cast,
mirroring the short-circuiting `any_of(enumerate(operands), ...)` of
`YieldOpRewritePattern::matchAndRewrite` (pass.cc:380). -/
def findFirstTokenOperand (defs : List MOp) : List Val → Nat → Option (Nat × MOp)
  | [], _ => none
  | v :: rest, i =>
    match GetDefiningCastOp defs v with
    | some castOp => some (i, castOp)
    | none => findFirstTokenOperand defs rest (i + 1)

/-- The effect of a successful yield rewrite: ops created, the yield's new
operand list, and the erased cast. -/
structure YieldResult where
  emitted : List MOp
  newOperands : List Val
  erased : List MOp
  deriving DecidableEq, Repr

/-- `YieldOpRewritePattern::matchAndRewrite` (pass.cc:377-402): for the
first operand produced by a qualifying cast, create an event in the
stream's context, record it on that stream against that chain, replace the
operand with the event and erase the cast; if no operand qualifies, report
a match failure. -/
def yieldRW (defs : List MOp) (operands : List Val) (n0 : Nat) :
    Except String YieldResult :=
  match findFirstTokenOperand defs operands 0 with
  | none => .error "no cast to token operand"
  | some (i, castOp) =>
    let chain := castOp.operands.getD 0 ⟨0, Ty.other 0⟩
    let stream := castOp.operands.getD 1 ⟨0, Ty.other 0⟩
    let ctx : Val := ⟨n0, Ty.context⟩
    let ev : Val := ⟨n0 + 1, Ty.event⟩
    let c2 : Val := ⟨n0 + 2, Ty.chain⟩
    .ok ⟨[⟨.streamGetContext, [stream], [ctx]⟩,
          ⟨.eventCreate, [ctx], [ev]⟩,
          ⟨.eventRecord, [ev, stream, chain], [c2]⟩],
         operands.set i ev, [castOp]⟩

/-- Defining `ConstantIndexOp` of a value, if any
(`adaptor.byte_shift().getDefiningOp<ConstantIndexOp>()`). -/
def getDefiningConstantIndex (defs : List MOp) (v : Val) : Option Int :=
  match getDefiningOp defs v with
  | some o =>
    match o.kind with
    | .constantIndex c => some c
    | _ => none
  | none => none

/-- The operands of a `memref.view` op as seen through
`memref::ViewOpAdaptor`: source, byte shift, and the sizes list. -/
structure ViewAdaptor where
  source : Val
  byteShift : Val
  sizes : List Val

/-- `FoldMemrefViewPattern::matchAndRewrite` (pass.cc:208-221): replace the
view with its source when the source is a `!tfrt_gpu.buffer`, the byte
shift is a constant index zero, and no sizes are given; otherwise a match
failure with the corresponding reason. -/
def foldMemrefView (defs : List MOp) (a : ViewAdaptor) : Except String Val :=
  if ¬ a.source.ty = Ty.buffer then .error "expected gpu::BufferType source"
  else
    match getDefiningConstantIndex defs a.byteShift with
    | some c =>
      if ¬ c = 0 then .error "expected const zero byte_shift"
      else if ¬ a.sizes.isEmpty then .error "expected no sizes"
      else .ok a.source
    | none => .error "expected const zero byte_shift"

/-- A function: signature, entry-block arguments, body ops and the
terminator of its (single) block. -/
structure Func where
  argTypes : List Ty
  resultTypes : List Ty
  entryArgs : List Val
  ops : List MOp
  term : MOp
  deriving DecidableEq, Repr

/-- Replace a value by its image under the argument substitution, if it has
one. -/
def substVal (sigma : List (Nat × Val)) (v : Val) : Val :=
  match sigma.find? (fun p => p.1 = v.id) with
  | some p => p.2
  | none => v

/-- Apply the argument substitution to an op's operands
(`Block::mergeBlocks` replaces uses of the old block arguments). -/
def substOp (sigma : List (Nat × Val)) (o : MOp) : MOp :=
  ⟨o.kind, o.operands.map (substVal sigma), o.results⟩

/-- `SignatureRewritePattern::matchAndRewrite` (pass.cc:254-284): reject a
function with results; otherwise prepend `!tfrt.chain` and
`!tfrt_gpu.stream` parameters, set the result list to a single
`!tfrt.chain`, create a new entry block whose arguments are fresh values of
the new parameter types, merge the old entry block into it (substituting
the old arguments by the new ones after the first two), and replace the
terminator by `tfrt.return` of the new chain argument. -/
def signatureRW (f : Func) (n0 : Nat) : Except String Func :=
  if f.resultTypes.length > 0 then .error "Expected no result"
  else
    let chainArg : Val := ⟨n0, Ty.chain⟩
    let streamArg : Val := ⟨n0 + 1, Ty.stream⟩
    let newTail : List Val := f.argTypes.enum.map (fun p => ⟨n0 + 2 + p.1, p.2⟩)
    let sigma : List (Nat × Val) := (f.entryArgs.map Val.id).zip newTail
    .ok ⟨Ty.chain :: Ty.stream :: f.argTypes,
         [Ty.chain],
         chainArg :: streamArg :: newTail,
         f.ops.map (substOp sigma),
         ⟨.ret, [chainArg], []⟩⟩

/-- The dynamic-legality predicate registered in
`populateTfrtConversionPatterns` (pass.cc:430-437): the signature must be
`(!tfrt.chain, !tfrt_gpu.stream, ...) -> (!tfrt.chain)`. -/
def funcLegal (f : Func) : Bool :=
  f.resultTypes.length == 1 &&
  f.resultTypes.getD 0 (Ty.other 0) == Ty.chain &&
  decide (f.argTypes.length ≥ 2) &&
  f.argTypes.getD 0 (Ty.other 0) == Ty.chain &&
  f.argTypes.getD 1 (Ty.other 0) == Ty.stream

/-- Modelled from the spec: the MLIR dialect-conversion driver that applies
the registered patterns is external to `src/`.  Per the spec, a Function
classified as dynamically legal is left untouched, and an illegal one gets
the signature rewrite applied if it matches; a failed match leaves the
Function unchanged. -/
def convertFunc (f : Func) (n0 : Nat) : Func :=
  if funcLegal f then f
  else
    match signatureRW f n0 with
    | .ok g => g
    | .error _ => f

/-- A default value used with `List.getD`. -/
def dVal : Val := ⟨0, Ty.other 0⟩

/-- C3.  The signature rewrite fails (changing nothing, being a pure match
failure) on every Function with a non-empty result list; on every Function
with an empty result list it prepends a Chain and a Queue parameter, sets
the result list to exactly one Chain, gives the entry block a Chain-typed
and a Queue-typed leading argument (two more arguments than declared
parameters of the old function), and rewrites the terminator to return the
new Chain parameter (parameter 0). -/
theorem signature_rewrite_correct (f : Func) (n0 : Nat) :
    (f.resultTypes ≠ [] → ∃ e, signatureRW f n0 = .error e) ∧
    (f.resultTypes = [] → ∃ g, signatureRW f n0 = .ok g ∧
      g.argTypes = Ty.chain :: Ty.stream :: f.argTypes ∧
      g.resultTypes = [Ty.chain] ∧
      (g.entryArgs.getD 0 dVal).ty = Ty.chain ∧
      (g.entryArgs.getD 1 dVal).ty = Ty.stream ∧
      g.entryArgs.length = f.argTypes.length + 2 ∧
      g.term = ⟨OpKind.ret, [g.entryArgs.getD 0 dVal], []⟩) := by
  constructor
  · intro h
    refine ⟨"Expected no result", ?_⟩
    rw [signatureRW, if_pos (by cases hr : f.resultTypes <;> simp_all)]
  · intro h
    rw [signatureRW, if_neg (by simp [h])]
    refine ⟨_, rfl, rfl, rfl, rfl, rfl, by simp, rfl⟩

/-- Witness for C3: a zero-argument, zero-result Function becomes a
Function of two parameters (Chain, Queue) and one Chain result whose
terminator returns parameter 0. -/
theorem signature_rewrite_correct_witness :
    ∃ g, signatureRW ⟨[], [], [], [], ⟨OpKind.ret, [], []⟩⟩ 0 = .ok g ∧
      g.argTypes = Ty.chain :: Ty.stream :: [] ∧
      g.resultTypes = [Ty.chain] ∧
      (g.entryArgs.getD 0 dVal).ty = Ty.chain ∧
      (g.entryArgs.getD 1 dVal).ty = Ty.stream ∧
      g.entryArgs.length = ([] : List Ty).length + 2 ∧
      g.term = ⟨OpKind.ret, [g.entryArgs.getD 0 dVal], []⟩ :=
  (signature_rewrite_correct ⟨[], [], [], [], ⟨OpKind.ret, [], []⟩⟩ 0).2 rfl

/-- A Function signature in target form: first parameter Chain, second
parameter Queue (stream), exactly one Chain result. -/
def targetForm (f : Func) : Bool :=
  (match f.argTypes with
   | a :: b :: _ => a == Ty.chain && b == Ty.stream
   | _ => false) &&
  f.resultTypes == [Ty.chain]

/-- C8.  A Function in target form is classified as dynamically legal and
left untouched by the conversion; the conversion is idempotent: converting
twice (with any fresh counters) equals converting once. -/
theorem conversion_idempotent (f : Func) (n0 n1 : Nat) :
    (targetForm f = true → funcLegal f = true ∧ convertFunc f n0 = f) ∧
    convertFunc (convertFunc f n0) n1 = convertFunc f n0 := by
  have hlegal : ∀ g : Func, targetForm g = true → funcLegal g = true := by
    intro g hg
    rw [targetForm] at hg
    simp only [Bool.and_eq_true] at hg
    obtain ⟨hargs, hres⟩ := hg
    match hA : g.argTypes with
    | [] => rw [hA] at hargs; simp at hargs
    | [a] => rw [hA] at hargs; simp at hargs
    | a :: b :: rest =>
      rw [hA] at hargs
      simp only [Bool.and_eq_true, beq_iff_eq] at hargs hres
      rw [funcLegal, hA, hres]
      simp [hargs.1, hargs.2]
  constructor
  · intro h
    have hl := hlegal f h
    exact ⟨hl, by rw [convertFunc, if_pos hl]⟩
  · by_cases hl : funcLegal f = true
    · have h1 : convertFunc f n0 = f := by rw [convertFunc, if_pos hl]
      rw [h1, convertFunc, if_pos hl]
    · by_cases hr : f.resultTypes.length > 0
      · have h1 : convertFunc f n0 = f := by
          rw [convertFunc, if_neg hl, signatureRW, if_pos hr]
        rw [h1, convertFunc, if_neg hl, signatureRW, if_pos hr]
      · obtain ⟨g, hg⟩ : ∃ g, signatureRW f n0 = .ok g := by
          rw [signatureRW, if_neg hr]
          exact ⟨_, rfl⟩
        have h1 : convertFunc f n0 = g := by rw [convertFunc, if_neg hl, hg]
        have hgl : funcLegal g = true := by
          rw [signatureRW, if_neg hr] at hg
          cases hg
          rw [funcLegal]
          simp
        rw [h1, convertFunc, if_pos hgl]

/-- Witness for C8: a concrete target-form function is legal and a fixed
point of the conversion. -/
theorem conversion_idempotent_witness :
    funcLegal ⟨[Ty.chain, Ty.stream], [Ty.chain], [], [], ⟨OpKind.ret, [], []⟩⟩ = true ∧
    convertFunc ⟨[Ty.chain, Ty.stream], [Ty.chain], [], [], ⟨OpKind.ret, [], []⟩⟩ 0 =
      ⟨[Ty.chain, Ty.stream], [Ty.chain], [], [], ⟨OpKind.ret, [], []⟩⟩ :=
  (conversion_idempotent ⟨[Ty.chain, Ty.stream], [Ty.chain], [], [], ⟨OpKind.ret, [], []⟩⟩ 0 0).1 rfl

/-- C5.  A wait with exactly two Event operands that requests an async
result, inside an async-execute region, with the enclosing function in
target signature form and a Chain-returning terminator, produces exactly
one new stream (created from the context obtained from the ambient
stream), zero events, and exactly two stream-wait ops whose chains are
threaded in sequence; the op is replaced by a final cast packaging the
last chain and the new stream as a token. -/
theorem wait_two_events_async (defs : List MOp) (a b t0 e1 e2 : Val)
    (rest ts : List Val) (n0 : Nat)
    (ha : a.ty = Ty.chain) (hb : b.ty = Ty.stream) (ht : t0.ty = Ty.chain)
    (he1 : e1.ty = Ty.event) (he2 : e2.ty = Ty.event) :
    ∃ out, waitRW defs ⟨a :: b :: rest, some (t0 :: ts), [e1, e2], true, true⟩ n0 =
        .ok out ∧
      out.emitted =
        [⟨OpKind.newChain, [], [⟨n0, Ty.chain⟩]⟩,
         ⟨OpKind.streamGetContext, [b], [⟨n0 + 1, Ty.context⟩]⟩,
         ⟨OpKind.streamCreate, [⟨n0 + 1, Ty.context⟩], [⟨n0 + 2, Ty.stream⟩]⟩,
         ⟨OpKind.streamWait, [⟨n0 + 2, Ty.stream⟩, e1, ⟨n0, Ty.chain⟩], [⟨n0 + 3, Ty.chain⟩]⟩,
         ⟨OpKind.streamWait, [⟨n0 + 2, Ty.stream⟩, e2, ⟨n0 + 3, Ty.chain⟩], [⟨n0 + 4, Ty.chain⟩]⟩,
         ⟨OpKind.cast, [⟨n0 + 4, Ty.chain⟩, ⟨n0 + 2, Ty.stream⟩], [⟨n0 + 5, Ty.token⟩]⟩] ∧
      (out.emitted.filter (fun o => o.kind == OpKind.streamCreate)).length = 1 ∧
      (out.emitted.filter (fun o => o.kind == OpKind.eventCreate)).length = 0 ∧
      (out.emitted.filter (fun o => o.kind == OpKind.streamWait)).length = 2 ∧
      out.replacement = some ⟨n0 + 5, Ty.token⟩ ∧
      out.newTerminatorChain = none := by
  have h : waitRW defs ⟨a :: b :: rest, some (t0 :: ts), [e1, e2], true, true⟩ n0 =
      .ok ⟨[⟨OpKind.newChain, [], [⟨n0, Ty.chain⟩]⟩,
            ⟨OpKind.streamGetContext, [b], [⟨n0 + 1, Ty.context⟩]⟩,
            ⟨OpKind.streamCreate, [⟨n0 + 1, Ty.context⟩], [⟨n0 + 2, Ty.stream⟩]⟩,
            ⟨OpKind.streamWait, [⟨n0 + 2, Ty.stream⟩, e1, ⟨n0, Ty.chain⟩], [⟨n0 + 3, Ty.chain⟩]⟩,
            ⟨OpKind.streamWait, [⟨n0 + 2, Ty.stream⟩, e2, ⟨n0 + 3, Ty.chain⟩], [⟨n0 + 4, Ty.chain⟩]⟩,
            ⟨OpKind.cast, [⟨n0 + 4, Ty.chain⟩, ⟨n0 + 2, Ty.stream⟩], [⟨n0 + 5, Ty.token⟩]⟩],
           [], some ⟨n0 + 5, Ty.token⟩, none⟩ := by
    simp [waitRW, classifyOperands, emitWaits, ha, hb, ht, he1, he2]
  exact ⟨_, h, rfl, rfl, rfl, rfl, rfl, rfl⟩

/-- Witness for C5. -/
theorem wait_two_events_async_witness :
    ∃ out, waitRW [] ⟨[⟨0, Ty.chain⟩, ⟨1, Ty.stream⟩], some [⟨0, Ty.chain⟩],
        [⟨2, Ty.event⟩, ⟨3, Ty.event⟩], true, true⟩ 100 = .ok out ∧
      out.emitted =
        [⟨OpKind.newChain, [], [⟨100, Ty.chain⟩]⟩,
         ⟨OpKind.streamGetContext, [⟨1, Ty.stream⟩], [⟨101, Ty.context⟩]⟩,
         ⟨OpKind.streamCreate, [⟨101, Ty.context⟩], [⟨102, Ty.stream⟩]⟩,
         ⟨OpKind.streamWait, [⟨102, Ty.stream⟩, ⟨2, Ty.event⟩, ⟨100, Ty.chain⟩], [⟨103, Ty.chain⟩]⟩,
         ⟨OpKind.streamWait, [⟨102, Ty.stream⟩, ⟨3, Ty.event⟩, ⟨103, Ty.chain⟩], [⟨104, Ty.chain⟩]⟩,
         ⟨OpKind.cast, [⟨104, Ty.chain⟩, ⟨102, Ty.stream⟩], [⟨105, Ty.token⟩]⟩] ∧
      (out.emitted.filter (fun o => o.kind == OpKind.streamCreate)).length = 1 ∧
      (out.emitted.filter (fun o => o.kind == OpKind.eventCreate)).length = 0 ∧
      (out.emitted.filter (fun o => o.kind == OpKind.streamWait)).length = 2 ∧
      out.replacement = some ⟨105, Ty.token⟩ ∧
      out.newTerminatorChain = none :=
  wait_two_events_async [] ⟨0, Ty.chain⟩ ⟨1, Ty.stream⟩ ⟨0, Ty.chain⟩
    ⟨2, Ty.event⟩ ⟨3, Ty.event⟩ [] [] 100 rfl rfl rfl rfl rfl

/-- C6 (as stated) is false: for an async wait with zero Event operands
inside an async-execute region, the event is recorded against a *freshly
created* chain (the result of the `tfrt.new.chain` op created at the start
of the branch), not against the ambient Chain.  Here the ambient chain is
the function's chain argument `⟨0, chain⟩`, but the record op's chain
operand is the fresh value `⟨100, chain⟩`. -/
theorem wait_record_not_ambient_chain_counterexample :
    ∃ out, waitRW []
        ⟨[⟨0, Ty.chain⟩, ⟨1, Ty.stream⟩], some [⟨0, Ty.chain⟩], [], true, true⟩ 100 =
        .ok out ∧
      out.emitted.filter (fun o => o.kind == OpKind.eventRecord) =
        [⟨OpKind.eventRecord, [⟨102, Ty.event⟩, ⟨1, Ty.stream⟩, ⟨100, Ty.chain⟩],
          [⟨103, Ty.chain⟩]⟩] ∧
      ((out.emitted.filter (fun o => o.kind == OpKind.eventRecord)).getD 0
          ⟨OpKind.ret, [], []⟩).operands.getD 2 dVal ≠ ⟨0, Ty.chain⟩ := by
  refine ⟨_, rfl, rfl, ?_⟩
  decide

/-- C6 (amended).  For an async wait with zero Event operands inside an
async-execute region (function in target form, Chain-returning
terminator), the rewrite first creates a fresh chain, creates an Event in
the ambient stream's context and records it on the ambient Queue against
that *fresh* chain (producing the chain used from then on), and only then
derives the new Queue from the same context and makes the new Queue wait
on that Event; the op is replaced by a cast of the final chain and the new
Queue. -/
theorem wait_no_events_records_fresh_event (defs : List MOp) (a b t0 : Val)
    (rest ts : List Val) (n0 : Nat)
    (ha : a.ty = Ty.chain) (hb : b.ty = Ty.stream) (ht : t0.ty = Ty.chain) :
    waitRW defs ⟨a :: b :: rest, some (t0 :: ts), [], true, true⟩ n0 =
      .ok ⟨[⟨OpKind.newChain, [], [⟨n0, Ty.chain⟩]⟩,
            ⟨OpKind.streamGetContext, [b], [⟨n0 + 1, Ty.context⟩]⟩,
            ⟨OpKind.eventCreate, [⟨n0 + 1, Ty.context⟩], [⟨n0 + 2, Ty.event⟩]⟩,
            ⟨OpKind.eventRecord, [⟨n0 + 2, Ty.event⟩, b, ⟨n0, Ty.chain⟩], [⟨n0 + 3, Ty.chain⟩]⟩,
            ⟨OpKind.streamCreate, [⟨n0 + 1, Ty.context⟩], [⟨n0 + 4, Ty.stream⟩]⟩,
            ⟨OpKind.streamWait, [⟨n0 + 4, Ty.stream⟩, ⟨n0 + 2, Ty.event⟩, ⟨n0 + 3, Ty.chain⟩],
              [⟨n0 + 5, Ty.chain⟩]⟩,
            ⟨OpKind.cast, [⟨n0 + 5, Ty.chain⟩, ⟨n0 + 4, Ty.stream⟩], [⟨n0 + 6, Ty.token⟩]⟩],
           [], some ⟨n0 + 6, Ty.token⟩, none⟩ := by
  simp [waitRW, classifyOperands, emitWaits, ha, hb, ht]

/-- Witness for C6 (amended). -/
theorem wait_no_events_records_fresh_event_witness :
    waitRW [] ⟨[⟨0, Ty.chain⟩, ⟨1, Ty.stream⟩], some [⟨0, Ty.chain⟩], [], true, true⟩ 100 =
      .ok ⟨[⟨OpKind.newChain, [], [⟨100, Ty.chain⟩]⟩,
            ⟨OpKind.streamGetContext, [⟨1, Ty.stream⟩], [⟨101, Ty.context⟩]⟩,
            ⟨OpKind.eventCreate, [⟨101, Ty.context⟩], [⟨102, Ty.event⟩]⟩,
            ⟨OpKind.eventRecord, [⟨102, Ty.event⟩, ⟨1, Ty.stream⟩, ⟨100, Ty.chain⟩],
              [⟨103, Ty.chain⟩]⟩,
            ⟨OpKind.streamCreate, [⟨101, Ty.context⟩], [⟨104, Ty.stream⟩]⟩,
            ⟨OpKind.streamWait, [⟨104, Ty.stream⟩, ⟨102, Ty.event⟩, ⟨103, Ty.chain⟩],
              [⟨105, Ty.chain⟩]⟩,
            ⟨OpKind.cast, [⟨105, Ty.chain⟩, ⟨104, Ty.stream⟩], [⟨106, Ty.token⟩]⟩],
           [], some ⟨106, Ty.token⟩, none⟩ :=
  wait_no_events_records_fresh_event [] ⟨0, Ty.chain⟩ ⟨1, Ty.stream⟩ ⟨0, Ty.chain⟩
    [] [] 100 rfl rfl rfl

/-- C4 (as stated) is false: `any_of` in the yield rewrite short-circuits,
so one invocation processes only the *first* token operand.  On a yield
with two token operands, exactly one event-record op is produced and the
second operand is left as the (non-Event) token. -/
theorem yield_two_tokens_counterexample :
    ∃ out, yieldRW
        [⟨OpKind.cast, [⟨7, Ty.chain⟩, ⟨8, Ty.stream⟩], [⟨9, Ty.token⟩]⟩,
         ⟨OpKind.cast, [⟨17, Ty.chain⟩, ⟨18, Ty.stream⟩], [⟨19, Ty.token⟩]⟩]
        [⟨9, Ty.token⟩, ⟨19, Ty.token⟩] 100 = .ok out ∧
      (out.emitted.filter (fun o => o.kind == OpKind.eventRecord)).length = 1 ∧
      out.newOperands.getD 1 dVal = ⟨19, Ty.token⟩ ∧
      (out.newOperands.getD 1 dVal).ty ≠ Ty.event := by
  refine ⟨_, rfl, rfl, rfl, ?_⟩
  decide

/-- C4 (amended).  One invocation of the yield rewrite lowers exactly the
*first* operand produced by a qualifying cast: it creates an event in the
cast stream's context, records it on that stream against the cast's chain
(exactly one event-record op), replaces that operand with the event and
erases the cast; remaining token operands are left for later invocations
of the driver.  A yield with no qualifying operand is a match failure. -/
theorem yield_lowers_first_token (defs : List MOp) (operands : List Val) (n0 : Nat) :
    (findFirstTokenOperand defs operands 0 = none →
      yieldRW defs operands n0 = .error "no cast to token operand") ∧
    (∀ i castOp, findFirstTokenOperand defs operands 0 = some (i, castOp) →
      ∃ out, yieldRW defs operands n0 = .ok out ∧
        out.emitted =
          [⟨OpKind.streamGetContext, [castOp.operands.getD 1 dVal], [⟨n0, Ty.context⟩]⟩,
           ⟨OpKind.eventCreate, [⟨n0, Ty.context⟩], [⟨n0 + 1, Ty.event⟩]⟩,
           ⟨OpKind.eventRecord,
             [⟨n0 + 1, Ty.event⟩, castOp.operands.getD 1 dVal, castOp.operands.getD 0 dVal],
             [⟨n0 + 2, Ty.chain⟩]⟩] ∧
        (out.emitted.filter (fun o => o.kind == OpKind.eventRecord)).length = 1 ∧
        out.newOperands = operands.set i ⟨n0 + 1, Ty.event⟩ ∧
        out.erased = [castOp]) := by
  constructor
  · intro h
    rw [yieldRW, h]
  · intro i castOp h
    rw [yieldRW, h]
    exact ⟨_, rfl, by rw [dVal], rfl, rfl, rfl⟩

/-- Witness for C4 (amended): a yield with one token operand produces
exactly one event-record op and replaces the operand with the event. -/
theorem yield_lowers_first_token_witness :
    ∃ out, yieldRW [⟨OpKind.cast, [⟨7, Ty.chain⟩, ⟨8, Ty.stream⟩], [⟨9, Ty.token⟩]⟩]
        [⟨9, Ty.token⟩] 100 = .ok out ∧
      out.emitted =
        [⟨OpKind.streamGetContext, [⟨8, Ty.stream⟩], [⟨100, Ty.context⟩]⟩,
         ⟨OpKind.eventCreate, [⟨100, Ty.context⟩], [⟨101, Ty.event⟩]⟩,
         ⟨OpKind.eventRecord, [⟨101, Ty.event⟩, ⟨8, Ty.stream⟩, ⟨7, Ty.chain⟩],
           [⟨102, Ty.chain⟩]⟩] ∧
      (out.emitted.filter (fun o => o.kind == OpKind.eventRecord)).length = 1 ∧
      out.newOperands = [⟨9, Ty.token⟩].set 0 ⟨101, Ty.event⟩ ∧
      out.erased = [⟨OpKind.cast, [⟨7, Ty.chain⟩, ⟨8, Ty.stream⟩], [⟨9, Ty.token⟩]⟩] := by
  have h := (yield_lowers_first_token
    [⟨OpKind.cast, [⟨7, Ty.chain⟩, ⟨8, Ty.stream⟩], [⟨9, Ty.token⟩]⟩]
    [⟨9, Ty.token⟩] 100).2 0
    ⟨OpKind.cast, [⟨7, Ty.chain⟩, ⟨8, Ty.stream⟩], [⟨9, Ty.token⟩]⟩ rfl
  simpa using h

/-- The wait rewrite's first precondition (pass.cc:289-297): the enclosing
function has at least two arguments, the first a Chain and the second a
stream. -/
def waitFuncArgsOk (inp : WaitInput) : Prop :=
  match inp.funcArgs with
  | a :: b :: _ => a.ty = Ty.chain ∧ b.ty = Ty.stream
  | _ => False

/-- The wait rewrite's second precondition (pass.cc:299-305): the
function's terminator exists and its first operand is a Chain. -/
def waitTerminatorOk (inp : WaitInput) : Prop :=
  match inp.terminator with
  | some (t0 :: _) => t0.ty = Ty.chain
  | _ => False

/-- Some operand is neither an Event nor a token produced by a qualifying
cast (pass.cc:326). -/
def hasBadOperand (defs : List MOp) (inp : WaitInput) : Prop :=
  ∃ v ∈ inp.operands, ¬ v.ty = Ty.event ∧ GetDefiningCastOp defs v = none

/-- Number of token operands: operands that are not Events but are
produced by a qualifying cast. -/
def tokenOperandCount (defs : List MOp) (ops : List Val) : Nat :=
  (ops.filter (fun v => !(v.ty == Ty.event) && (GetDefiningCastOp defs v).isSome)).length

/-- The classification loop fails exactly when some operand is neither an
Event nor a qualifying token. -/
theorem classify_error_iff (defs : List MOp) :
    ∀ (ops events : List Val) (chain stream : Val) (erased : List MOp),
      (∃ e, classifyOperands defs ops events chain stream erased = .error e) ↔
        ∃ v ∈ ops, ¬ v.ty = Ty.event ∧ GetDefiningCastOp defs v = none := by
  intro ops
  induction ops with
  | nil => intro events chain stream erased; simp [classifyOperands]
  | cons v rest ih =>
    intro events chain stream erased
    by_cases hv : v.ty = Ty.event
    · rw [classifyOperands, if_pos hv, ih]
      constructor
      · rintro ⟨w, hw, h⟩
        exact ⟨w, by simp [hw], h⟩
      · rintro ⟨w, hw, h⟩
        rcases List.mem_cons.mp hw with rfl | hw'
        · exact absurd hv h.1
        · exact ⟨w, hw', h⟩
    · cases hc : GetDefiningCastOp defs v with
      | some castOp =>
        rw [classifyOperands, if_neg hv, hc]
        simp only
        rw [ih]
        constructor
        · rintro ⟨w, hw, h⟩
          exact ⟨w, by simp [hw], h⟩
        · rintro ⟨w, hw, h⟩
          rcases List.mem_cons.mp hw with rfl | hw'
          · rw [hc] at h
            exact absurd h.2 (by simp)
          · exact ⟨w, hw', h⟩
      | none =>
        rw [classifyOperands, if_neg hv, hc]
        simp only
        constructor
        · intro _
          exact ⟨v, by simp, hv, hc⟩
        · intro _
          exact ⟨_, rfl⟩

/-- On success, the classification collects exactly the Event-typed
operands (appended to the incoming accumulator, in order). -/
theorem classify_ok_events (defs : List MOp) :
    ∀ (ops events : List Val) (chain stream : Val) (erased : List MOp)
      (events' : List Val) (chain' stream' : Val) (erased' : List MOp),
      classifyOperands defs ops events chain stream erased =
        .ok (events', chain', stream', erased') →
      events'.length = events.length + (ops.filter (fun v => v.ty == Ty.event)).length := by
  intro ops
  induction ops with
  | nil =>
    intro events chain stream erased events' chain' stream' erased' h
    rw [classifyOperands] at h
    cases h
    simp
  | cons v rest ih =>
    intro events chain stream erased events' chain' stream' erased' h
    by_cases hv : v.ty = Ty.event
    · rw [classifyOperands, if_pos hv] at h
      have := ih _ _ _ _ _ _ _ _ h
      simp [this, List.filter_cons, hv]
      omega
    · cases hc : GetDefiningCastOp defs v with
      | some castOp =>
        rw [classifyOperands, if_neg hv, hc] at h
        simp only at h
        have := ih _ _ _ _ _ _ _ _ h
        simp [this, List.filter_cons, hv]
      | none =>
        rw [classifyOperands, if_neg hv, hc] at h
        simp at h

/-- Event-typed and non-Event-typed operands partition the operand list. -/
theorem length_filter_event_split (ops : List Val) :
    (ops.filter (fun v => v.ty == Ty.event)).length +
      (ops.filter (fun v => !(v.ty == Ty.event))).length = ops.length := by
  induction ops with
  | nil => simp
  | cons v rest ih =>
    by_cases hv : v.ty = Ty.event
    · simp [List.filter_cons, hv]
      omega
    · simp [List.filter_cons, hv]
      omega

/-- Without bad operands, the token operands are exactly the non-Event
operands. -/
theorem token_count_eq_nonevent (defs : List MOp) (ops : List Val)
    (h : ¬ ∃ v ∈ ops, ¬ v.ty = Ty.event ∧ GetDefiningCastOp defs v = none) :
    tokenOperandCount defs ops = (ops.filter (fun v => !(v.ty == Ty.event))).length := by
  rw [tokenOperandCount]
  congr 1
  apply List.filter_congr
  intro x hx
  by_cases hxe : x.ty = Ty.event
  · simp [hxe]
  · push_neg at h
    have hsome := h x hx hxe
    cases hcx : GetDefiningCastOp defs x with
    | some c => simp [hxe, hcx]
    | none => exact absurd hcx hsome

/-- Classifying a list of Event operands appends them to the accumulator
and leaves the ambient pair untouched. -/
theorem classify_all_events (defs : List MOp) :
    ∀ (evs events0 : List Val) (chain0 stream0 : Val) (erased0 : List MOp),
      (∀ v ∈ evs, v.ty = Ty.event) →
      classifyOperands defs evs events0 chain0 stream0 erased0 =
        .ok (events0 ++ evs, chain0, stream0, erased0) := by
  intro evs
  induction evs with
  | nil =>
    intro events0 chain0 stream0 erased0 _
    rw [classifyOperands]
    simp
  | cons v rest ih =>
    intro events0 chain0 stream0 erased0 h
    rw [classifyOperands, if_pos (h v (by simp))]
    rw [ih _ _ _ _ (fun x hx => h x (by simp [hx]))]
    simp

/-- Classifying a list with exactly one token operand (all others Events)
returns the Events in order, the token cast's chain and stream as the new
ambient pair, and the cast as erased. -/
theorem classify_single_token (defs : List MOp) :
    ∀ (evs1 evs2 : List Val) (tok : Val) (castOp : MOp) (events0 : List Val)
      (chain0 stream0 : Val) (erased0 : List MOp),
      (∀ v ∈ evs1, v.ty = Ty.event) → (∀ v ∈ evs2, v.ty = Ty.event) →
      ¬ tok.ty = Ty.event → GetDefiningCastOp defs tok = some castOp →
      classifyOperands defs (evs1 ++ tok :: evs2) events0 chain0 stream0 erased0 =
        .ok (events0 ++ evs1 ++ evs2, castOp.operands.getD 0 chain0,
             castOp.operands.getD 1 stream0, erased0 ++ [castOp]) := by
  intro evs1
  induction evs1 with
  | nil =>
    intro evs2 tok castOp events0 chain0 stream0 erased0 _ h2 htok hc
    rw [List.nil_append, classifyOperands, if_neg htok, hc]
    simp only
    rw [classify_all_events defs evs2 _ _ _ _ h2]
    simp
  | cons e evs1 ih =>
    intro evs2 tok castOp events0 chain0 stream0 erased0 h1 h2 htok hc
    rw [List.cons_append, classifyOperands, if_pos (h1 e (by simp))]
    rw [ih evs2 tok castOp (events0 ++ [e]) chain0 stream0 erased0
        (fun x hx => h1 x (by simp [hx])) h2 htok hc]
    simp

/-- When all four preconditions hold, the wait rewrite always succeeds, and
its erased-cast list is the one collected by the classification loop. -/
theorem waitRW_ok (defs : List MOp) (inp : WaitInput) (n0 : Nat)
    (a b t0 : Val) (rest ts : List Val)
    (hargs : inp.funcArgs = a :: b :: rest)
    (hab : a.ty = Ty.chain ∧ b.ty = Ty.stream)
    (hterm : inp.terminator = some (t0 :: ts))
    (ht : t0.ty = Ty.chain)
    (events : List Val) (chain stream : Val) (erased : List MOp)
    (hcl : classifyOperands defs inp.operands [] a b [] = .ok (events, chain, stream, erased))
    (hcount : ¬ events.length + 1 < inp.operands.length) :
    ∃ out, waitRW defs inp n0 = .ok out ∧ out.erased = erased := by
  rw [waitRW, hargs]
  simp only
  rw [if_pos hab, hterm]
  simp only
  rw [if_pos ht, hcl]
  simp only
  rw [if_neg hcount]
  cases hA : inp.asyncToken <;> exact ⟨_, rfl, rfl⟩

/-- C7.  The wait rewrite fails — with a structured, non-fatal match
failure carrying a reason — exactly when one of its preconditions is
unmet: the enclosing function does not have a Chain first and stream
second parameter, or its terminator does not return a Chain first, or some
operand is neither an Event nor a qualifying token cast, or at least two
token operands are present.  When exactly one token operand is present
(the rest Events), its chain and stream become the ambient pair, and the
originating cast is erased (it is the erased-op list of the successful
rewrite). -/
theorem wait_match_failure_iff (defs : List MOp) (inp : WaitInput) (n0 : Nat) :
    ((∃ e, waitRW defs inp n0 = .error e) ↔
      ¬ waitFuncArgsOk inp ∨ ¬ waitTerminatorOk inp ∨ hasBadOperand defs inp ∨
        2 ≤ tokenOperandCount defs inp.operands) ∧
    (∀ (evs1 evs2 : List Val) (tok : Val) (castOp : MOp),
      (∀ v ∈ evs1, v.ty = Ty.event) → (∀ v ∈ evs2, v.ty = Ty.event) →
      ¬ tok.ty = Ty.event → GetDefiningCastOp defs tok = some castOp →
      inp.operands = evs1 ++ tok :: evs2 →
      (∀ (chain0 stream0 : Val),
        classifyOperands defs inp.operands [] chain0 stream0 [] =
          .ok (evs1 ++ evs2, castOp.operands.getD 0 chain0,
               castOp.operands.getD 1 stream0, [castOp])) ∧
      (waitFuncArgsOk inp → waitTerminatorOk inp →
        ∃ out, waitRW defs inp n0 = .ok out ∧ out.erased = [castOp])) := by
  constructor
  · cases hargs : inp.funcArgs with
    | nil =>
      constructor
      · intro _
        exact Or.inl (by simp [waitFuncArgsOk, hargs])
      · intro _
        refine ⟨"not in func with chain and stream argument", ?_⟩
        rw [waitRW, hargs]
    | cons a tail =>
      cases tail with
      | nil =>
        constructor
        · intro _
          exact Or.inl (by simp [waitFuncArgsOk, hargs])
        · intro _
          refine ⟨"not in func with chain and stream argument", ?_⟩
          rw [waitRW, hargs]
      | cons b rest =>
        by_cases hab : a.ty = Ty.chain ∧ b.ty = Ty.stream
        · have hfOk : waitFuncArgsOk inp := by simp [waitFuncArgsOk, hargs, hab]
          cases hterm : inp.terminator with
          | none =>
            constructor
            · intro _
              exact Or.inr (Or.inl (by simp [waitTerminatorOk, hterm]))
            · intro _
              refine ⟨"not in func returning chain", ?_⟩
              rw [waitRW, hargs]
              simp only
              rw [if_pos hab, hterm]
          | some ts0 =>
            cases ts0 with
            | nil =>
              constructor
              · intro _
                exact Or.inr (Or.inl (by simp [waitTerminatorOk, hterm]))
              · intro _
                refine ⟨"not in func returning chain", ?_⟩
                rw [waitRW, hargs]
                simp only
                rw [if_pos hab, hterm]
            | cons t0 ts =>
              by_cases ht : t0.ty = Ty.chain
              · have htOk : waitTerminatorOk inp := by
                  simp [waitTerminatorOk, hterm, ht]
                cases hcl : classifyOperands defs inp.operands [] a b [] with
                | error e =>
                  have hbad : hasBadOperand defs inp :=
                    (classify_error_iff defs inp.operands [] a b []).mp ⟨e, hcl⟩
                  constructor
                  · intro _
                    exact Or.inr (Or.inr (Or.inl hbad))
                  · intro _
                    refine ⟨e, ?_⟩
                    rw [waitRW, hargs]
                    simp only
                    rw [if_pos hab, hterm]
                    simp only
                    rw [if_pos ht, hcl]
                | ok quad =>
                  obtain ⟨events, chain, stream, erased⟩ := quad
                  have hnobad : ¬ hasBadOperand defs inp := by
                    intro hb
                    obtain ⟨e, he⟩ := (classify_error_iff defs inp.operands [] a b []).mpr hb
                    rw [hcl] at he
                    exact Except.noConfusion he
                  have hev : events.length =
                      (inp.operands.filter (fun v => v.ty == Ty.event)).length := by
                    have := classify_ok_events defs inp.operands [] a b []
                      events chain stream erased hcl
                    simpa using this
                  have hsplit := length_filter_event_split inp.operands
                  have htok := token_count_eq_nonevent defs inp.operands
                    (by simpa [hasBadOperand] using hnobad)
                  by_cases hcount : events.length + 1 < inp.operands.length
                  · constructor
                    · intro _
                      refine Or.inr (Or.inr (Or.inr ?_))
                      rw [htok]
                      omega
                    · intro _
                      refine ⟨"more than one token operand", ?_⟩
                      rw [waitRW, hargs]
                      simp only
                      rw [if_pos hab, hterm]
                      simp only
                      rw [if_pos ht, hcl]
                      simp only
                      rw [if_pos hcount]
                  · obtain ⟨out, hout, -⟩ := waitRW_ok defs inp n0 a b t0 rest ts
                      hargs hab hterm ht events chain stream erased hcl hcount
                    constructor
                    · rintro ⟨e, he⟩
                      rw [hout] at he
                      exact Except.noConfusion he
                    · intro hdisj
                      exfalso
                      rcases hdisj with h | h | h | h
                      · exact h hfOk
                      · exact h htOk
                      · exact hnobad h
                      · rw [htok] at h
                        omega
              · constructor
                · intro _
                  exact Or.inr (Or.inl (by simp [waitTerminatorOk, hterm, ht]))
                · intro _
                  refine ⟨"not in func returning chain", ?_⟩
                  rw [waitRW, hargs]
                  simp only
                  rw [if_pos hab, hterm]
                  simp only
                  rw [if_neg ht]
        · constructor
          · intro _
            refine Or.inl ?_
            simp [waitFuncArgsOk, hargs]
            exact fun h1 h2 => hab ⟨h1, h2⟩
          · intro _
            refine ⟨"not in func with chain and stream argument", ?_⟩
            rw [waitRW, hargs]
            simp only
            rw [if_neg hab]
  · intro evs1 evs2 tok castOp h1 h2 htokev hc hops
    have hclassify : ∀ (chain0 stream0 : Val),
        classifyOperands defs inp.operands [] chain0 stream0 [] =
          .ok (evs1 ++ evs2, castOp.operands.getD 0 chain0,
               castOp.operands.getD 1 stream0, [castOp]) := by
      intro chain0 stream0
      rw [hops]
      have := classify_single_token defs evs1 evs2 tok castOp [] chain0 stream0 []
        h1 h2 htokev hc
      simpa using this
    refine ⟨hclassify, ?_⟩
    intro hfOk htOk
    cases hargs : inp.funcArgs with
    | nil => simp [waitFuncArgsOk, hargs] at hfOk
    | cons a tail =>
      cases tail with
      | nil => simp [waitFuncArgsOk, hargs] at hfOk
      | cons b rest =>
        have hab : a.ty = Ty.chain ∧ b.ty = Ty.stream := by
          simpa [waitFuncArgsOk, hargs] using hfOk
        cases hterm : inp.terminator with
        | none => simp [waitTerminatorOk, hterm] at htOk
        | some ts0 =>
          cases ts0 with
          | nil => simp [waitTerminatorOk, hterm] at htOk
          | cons t0 ts =>
            have ht : t0.ty = Ty.chain := by
              simpa [waitTerminatorOk, hterm] using htOk
            have hcount : ¬ (evs1 ++ evs2).length + 1 < inp.operands.length := by
              rw [hops]
              simp
              omega
            exact waitRW_ok defs inp n0 a b t0 rest ts hargs hab hterm ht
              (evs1 ++ evs2) (castOp.operands.getD 0 a) (castOp.operands.getD 1 b)
              [castOp] (hclassify a b) hcount

/-- Witness for C7: a wait whose enclosing function lacks the chain/stream
arguments fails; and for a single-token wait in a well-formed function the
ambient pair becomes the cast's operands and the cast is erased. -/
theorem wait_match_failure_iff_witness :
    (∃ e, waitRW [] ⟨[], none, [], false, false⟩ 0 = .error e) ∧
    (∃ out, waitRW [⟨OpKind.cast, [⟨7, Ty.chain⟩, ⟨8, Ty.stream⟩], [⟨9, Ty.token⟩]⟩]
        ⟨[⟨0, Ty.chain⟩, ⟨1, Ty.stream⟩], some [⟨0, Ty.chain⟩], [⟨9, Ty.token⟩],
         false, false⟩ 100 = .ok out ∧
      out.erased = [⟨OpKind.cast, [⟨7, Ty.chain⟩, ⟨8, Ty.stream⟩], [⟨9, Ty.token⟩]⟩]) := by
  constructor
  · exact (wait_match_failure_iff [] ⟨[], none, [], false, false⟩ 0).1.mpr
      (Or.inl (by simp [waitFuncArgsOk]))
  · exact ((wait_match_failure_iff
      [⟨OpKind.cast, [⟨7, Ty.chain⟩, ⟨8, Ty.stream⟩], [⟨9, Ty.token⟩]⟩]
      ⟨[⟨0, Ty.chain⟩, ⟨1, Ty.stream⟩], some [⟨0, Ty.chain⟩], [⟨9, Ty.token⟩],
       false, false⟩ 100).2 [] [] ⟨9, Ty.token⟩
      ⟨OpKind.cast, [⟨7, Ty.chain⟩, ⟨8, Ty.stream⟩], [⟨9, Ty.token⟩]⟩
      (by simp) (by simp) (by simp) rfl rfl).2
      (by simp [waitFuncArgsOk]) (by simp [waitTerminatorOk])

/-- C10.  The memref-view folding replaces the view by its source exactly
when the source is a GPU-buffer-typed value, the byte shift is defined by a
constant index op with value 0, and the sizes list is empty; in every
other case it returns a match failure with a reason string (and so changes
nothing). -/
theorem fold_memref_view (defs : List MOp) (a : ViewAdaptor) :
    (foldMemrefView defs a = .ok a.source ↔
      (a.source.ty = Ty.buffer ∧ getDefiningConstantIndex defs a.byteShift = some 0 ∧
        a.sizes = [])) ∧
    (¬ (a.source.ty = Ty.buffer ∧ getDefiningConstantIndex defs a.byteShift = some 0 ∧
        a.sizes = []) → ∃ e, foldMemrefView defs a = .error e) := by
  by_cases h1 : a.source.ty = Ty.buffer
  · cases h2 : getDefiningConstantIndex defs a.byteShift with
    | none =>
      have hf : foldMemrefView defs a = .error "expected const zero byte_shift" := by
        simp [foldMemrefView, h1, h2]
      constructor
      · rw [hf]
        constructor
        · intro h
          exact absurd h (by simp)
        · rintro ⟨-, hz, -⟩
          exact absurd hz (by simp)
      · intro _
        exact ⟨_, hf⟩
    | some c =>
      by_cases hc : c = 0
      · subst hc
        by_cases h3 : a.sizes = []
        · have hf : foldMemrefView defs a = .ok a.source := by
            simp [foldMemrefView, h1, h2, h3]
          constructor
          · rw [hf]
            simp [h1, h2, h3]
          · intro hn
            exact absurd ⟨h1, rfl, h3⟩ hn
        · have hf : foldMemrefView defs a = .error "expected no sizes" := by
            simp [foldMemrefView, h1, h2, h3]
          constructor
          · rw [hf]
            constructor
            · intro h
              exact absurd h (by simp)
            · rintro ⟨-, -, hz⟩
              exact absurd hz h3
          · intro _
            exact ⟨_, hf⟩
      · have hf : foldMemrefView defs a = .error "expected const zero byte_shift" := by
          simp [foldMemrefView, h1, h2, hc]
        constructor
        · rw [hf]
          constructor
          · intro h
            exact absurd h (by simp)
          · rintro ⟨-, hz, -⟩
            simp at hz
            exact absurd hz hc
        · intro _
          exact ⟨_, hf⟩
  · have hf : foldMemrefView defs a = .error "expected gpu::BufferType source" := by
      simp [foldMemrefView, h1]
    constructor
    · rw [hf]
      constructor
      · intro h
        exact absurd h (by simp)
      · rintro ⟨hb, -, -⟩
        exact absurd hb h1
    · intro _
      exact ⟨_, hf⟩

/-- Witness for C10: a qualifying view is folded to its source; a view
with a non-buffer source is a match failure. -/
theorem fold_memref_view_witness :
    foldMemrefView [⟨OpKind.constantIndex 0, [], [⟨5, Ty.index⟩]⟩]
      ⟨⟨4, Ty.buffer⟩, ⟨5, Ty.index⟩, []⟩ = .ok ⟨4, Ty.buffer⟩ ∧
    (∃ e, foldMemrefView [] ⟨⟨4, Ty.index⟩, ⟨5, Ty.index⟩, []⟩ = .error e) := by
  constructor
  · exact (fold_memref_view [⟨OpKind.constantIndex 0, [], [⟨5, Ty.index⟩]⟩]
      ⟨⟨4, Ty.buffer⟩, ⟨5, Ty.index⟩, []⟩).1.mpr ⟨rfl, rfl, rfl⟩
  · exact (fold_memref_view [] ⟨⟨4, Ty.index⟩, ⟨5, Ty.index⟩, []⟩).2 (by simp)
